import Mathlib

/-!
Verification of the filter refresh engine (`filters/filters.go`) of this
repository against its design specification.

The Go code is shallowly embedded: the mutex-guarded `Filters` object becomes a
plain record that every operation consumes and returns, byte slices become
lists of characters, timestamps become natural numbers holding Unix seconds,
and the on-disk storage directory becomes an explicit association list from the
filter id to the file contents (every file the module touches lives directly in
`conf.FilterDir` under the name `<id>.txt`, so within the one fixed directory
the id determines the path; `filterPath` below renders the actual path string).
HTTP downloads are represented by an explicit oracle argument of type
`Except Unit Bytes`: `.ok body` stands for a 200 response with the given body,
`.error ()` for a transport error or a non-200 status.
-/

set_option autoImplicit false

namespace AGH

/-- Byte slices (`[]byte` / `string` contents) are modelled as lists of
characters. -/
abbrev Bytes := List Char

/-- The storage directory: an association list from filter id to the bytes of
the file `<id>.txt`.  Earlier bindings shadow later ones. -/
abbrev Disk := List (Nat × Bytes)

/-- First-binding lookup in the modelled directory. -/
def diskLookup : Disk → Nat → Option Bytes
  | [], _ => none
  | (k, v) :: rest, id => if id = k then some v else diskLookup rest id

/-- Writing a file (`file.SafeWrite`): the new binding shadows any old one. -/
def diskWrite (d : Disk) (k : Nat) (v : Bytes) : Disk :=
  (k, v) :: d

/-- Remove every binding of a key (a file disappearing from the directory). -/
def diskErase : Disk → Nat → Disk
  | [], _ => []
  | (k, v) :: rest, id =>
    if k = id then diskErase rest id else (k, v) :: diskErase rest id

/-- Model of `os.Rename(src, dst)`: if `src` does not exist the call fails
(the caller only logs the error), leaving the directory unchanged; otherwise
the content moves from `src` to `dst`, overwriting `dst`. -/
def fsRename (d : Disk) (src dst : Nat) : Disk :=
  match diskLookup d src with
  | none => d
  | some content => (dst, content) :: diskErase d src

@[simp] theorem diskLookup_nil (a : Nat) : diskLookup [] a = none := rfl

@[simp] theorem diskLookup_cons (k : Nat) (v : Bytes) (d : Disk) (a : Nat) :
    diskLookup ((k, v) :: d) a = if a = k then some v else diskLookup d a := rfl

@[simp] theorem diskLookup_write_self (d : Disk) (k : Nat) (v : Bytes) :
    diskLookup (diskWrite d k v) k = some v := by
  simp [diskWrite]

theorem diskLookup_write_ne (d : Disk) (k : Nat) (v : Bytes) (a : Nat)
    (h : a ≠ k) : diskLookup (diskWrite d k v) a = diskLookup d a := by
  simp [diskWrite, h]

theorem diskLookup_erase (d : Disk) (k a : Nat) :
    diskLookup (diskErase d k) a = if a = k then none else diskLookup d a := by
  induction d with
  | nil => simp [diskErase]
  | cons p rest ih =>
    obtain ⟨k', v'⟩ := p
    simp only [diskErase]
    by_cases hk : k' = k
    · subst hk
      rw [if_pos rfl, ih]
      by_cases ha : a = k' <;> simp [ha]
    · rw [if_neg hk]
      by_cases ha : a = k'
      · subst ha
        have hak : ¬a = k := fun h => hk h
        simp [hak]
      · simp [ha, ih]

theorem fsRename_lookup_ne (d : Disk) (src dst a : Nat)
    (hs : a ≠ src) (hd : a ≠ dst) :
    diskLookup (fsRename d src dst) a = diskLookup d a := by
  unfold fsRename
  cases h : diskLookup d src with
  | none => rfl
  | some c => simp [hd, diskLookup_erase, hs]

theorem fsRename_lookup_dst (d : Disk) (src dst : Nat) (c : Bytes)
    (h : diskLookup d src = some c) :
    diskLookup (fsRename d src dst) dst = some c := by
  unfold fsRename
  simp [h]

/-- Go struct `Filter` (filters.go:28-40).  `time.Time` fields are Unix
seconds; the zero `time.Time` is modelled as second `0`. -/
structure Filter where
  ID : Nat
  Enabled : Bool
  Name : String
  URL : String
  Path : String
  RuleCount : Nat
  LastUpdated : Nat
  newID : Nat
  nextUpdate : Nat
deriving DecidableEq, Repr

/-- The Go zero value of `Filter` (what `make([]Filter, n)` fills in). -/
def Filter.zero : Filter :=
  { ID := 0, Enabled := false, Name := "", URL := "", Path := ""
    RuleCount := 0, LastUpdated := 0, newID := 0, nextUpdate := 0 }

/-- Go struct `Conf` (filters.go:43-48).  The `HTTPClient` field is not data;
it is represented by the download-oracle arguments of the operations below. -/
structure Conf where
  FilterDir : String
  UpdateIntervalHours : Nat
  Proxylist : List Filter
deriving DecidableEq, Repr

/-- Go struct `Filters` (filters.go:51-58).  The mutex `confLock` disappears in
the sequential embedding; `Users` keeps only an opaque tag per registered
handler, in registration order (`AddUser` appends, filters.go:112-114). -/
structure Filters where
  filtersUpdated : Bool
  updateTaskRunning : Bool
  conf : Conf
  Users : List Nat
deriving DecidableEq, Repr

/-- Go `filterPath` (filters.go:137-139): `filepath.Join(FilterDir, "<ID>.txt")`.
`filepath.Join` of a directory and a simple file name is rendered as
`dir ++ "/" ++ name`. -/
def filterPath (conf : Conf) (f : Filter) : String :=
  conf.FilterDir ++ "/" ++ toString f.ID ++ ".txt"

/-- Go `nextFilterID` (filters.go:142-144): `uint64(time.Now().Unix())`.  The
current time is an explicit argument, in whole seconds. -/
def nextFilterID (now : Nat) : Nat := now

/-- Go `StatusNotFound` (filters.go:259). -/
def StatusNotFound : Nat := 1
/-- Go `StatusChangedEnabled` (filters.go:261). -/
def StatusChangedEnabled : Nat := 2
/-- Go `StatusChangedURL` (filters.go:263). -/
def StatusChangedURL : Nat := 4

/-- Go `EventBeforeUpdate` (filters.go:19). -/
def EventBeforeUpdate : Nat := 0
/-- Go `EventAfterUpdate` (filters.go:21). -/
def EventAfterUpdate : Nat := 1

/-- Observable actions of the swap protocol: invocation of a registered
handler with an event flag (`NotifyUsers`, filters.go:117-121) and an attempt
to rename file `<src>.txt` onto `<dst>.txt` (filters.go:397).  A rename
attempt is recorded whether or not the underlying `os.Rename` succeeds. -/
inductive Event where
  | notify (user : Nat) (flag : Nat)
  | rename (src : Nat) (dst : Nat)
deriving DecidableEq, Repr

/-- Whether an event is a rename attempt. -/
def Event.isRename : Event → Bool
  | .rename _ _ => true
  | .notify _ _ => false

/-- Go `NotifyUsers` (filters.go:117-121): invoke every registered handler, in
registration order.  The invocations are recorded as events. -/
def notifyEvents (users : List Nat) (flag : Nat) : List Event :=
  users.map (fun u => Event.notify u flag)

/-- Go `AddUser` (filters.go:112-114): append a handler to `Users`. -/
def Filters.addUser (fs : Filters) (handler : Nat) : Filters :=
  { fs with Users := fs.Users ++ [handler] }

/-- Modelled from the spec: `util.SplitNext(&data, sep)` (package `util`, whose
source is not part of this repository snapshot).  Per spec 4.2 the classifier
"splits the body into lines": `splitNext` cuts off the chunk before the first
occurrence of `sep` and leaves the remainder after it; without an occurrence
the whole rest is the chunk and the remainder is empty. -/
def splitNext : Bytes → Char → Bytes × Bytes
  | [], _ => ([], [])
  | c :: rest, sep =>
    if c = sep then ([], rest)
    else
      let p := splitNext rest sep
      (c :: p.1, p.2)

/-- The loop condition of `parseFilter` (filters.go:172-174), read positively:
a line counts as a rule when it is non-empty and does not start with `#` or
`!`. -/
def significantLine : Bytes → Bool
  | [] => false
  | c :: _ => !(c == '#' || c == '!')

/-- The counting loop of `parseFilter` (filters.go:170-179): repeatedly strip
the next line off `data` while it is non-empty, counting significant lines.
Structural recursion needs a fuel argument; `splitNext` strictly shrinks the
remainder (`splitNext_snd_lt` below), so fuel `data.length` never runs out. -/
def ruleCountAux : Nat → Bytes → Nat
  | 0, _ => 0
  | Nat.succ n, data =>
    match data with
    | [] => 0
    | _ :: _ =>
      let p := splitNext data '\n'
      (if significantLine p.1 then 1 else 0) + ruleCountAux n p.2

/-- Go `parseFilter` (filters.go:165-183): store the rule count of the body.  The
Go function always returns `nil`, so no error component is modelled. -/
def parseFilter (f : Filter) (body : Bytes) : Filter :=
  { f with RuleCount := ruleCountAux body.length body }

/-- Spec-side definition, following the words of spec 4.2: the lines of a
body, split on the newline character (the chunk before each newline, plus the
trailing chunk).  Used as the refinement target for `parseFilter`. -/
def specLines : Bytes → List Bytes
  | [] => [[]]
  | c :: rest =>
    if c = '\n' then [] :: specLines rest
    else
      match specLines rest with
      | [] => [[c]]
      | l :: ls => (c :: l) :: ls

/-- Spec-side definition: the number of lines that are non-empty and do not
start with `#` or `!`. -/
def countSignificant (ls : List Bytes) : Nat :=
  ls.countP (fun l => significantLine l)

/-- Go `downloadFilter` (filters.go:186-209).  `res` is the outcome of
`download(fs.conf.HTTPClient, f.URL)`; on success the body is classified, the
file `<f.ID>.txt` is written (`file.SafeWrite`, modelled as succeeding) and
`LastUpdated` is set to the current time. -/
def downloadFilter (disk : Disk) (f : Filter) (res : Except Unit Bytes)
    (now : Nat) : Except Unit (Filter × Disk) :=
  match res with
  | .error e => .error e
  | .ok body =>
    let f1 := parseFilter f body
    .ok ({ f1 with LastUpdated := now }, diskWrite disk f1.ID body)

/-- Error taxonomy of `Add` (spec 7): the Go code returns `error` values, the
two possible ones being the duplicate rejection (filters.go:218) and a failed
initial download (filters.go:224-228). -/
inductive AddError where
  | duplicate
  | downloadFailed
deriving DecidableEq, Repr

/-- Go `Add` (filters.go:212-232): reject a duplicate `Name` or `URL`; otherwise
assign a fresh id, mark enabled, download synchronously, and append the record
only when the download succeeded. -/
def Filters.add (fs : Filters) (disk : Disk) (nf : Filter)
    (res : Except Unit Bytes) (now : Nat) : Filters × Disk × Option AddError :=
  if fs.conf.Proxylist.any (fun f => f.Name == nf.Name || f.URL == nf.URL) then
    (fs, disk, some AddError.duplicate)
  else
    let nf1 := { nf with ID := nextFilterID now, Enabled := true }
    match downloadFilter disk nf1 res now with
    | .error _ => (fs, disk, some AddError.downloadFailed)
    | .ok (nf2, disk1) =>
      ({ fs with conf := { fs.conf with Proxylist := fs.conf.Proxylist ++ [nf2] } },
       disk1, none)

/-- Go `Delete` (filters.go:235-255).  The Go loop is

`for _, f := range pl { if f.URL == url { found = &f; continue }; nf = append(nf, f) }`

`f` is a single loop variable reused on every iteration, and `found = &f`
stores the address of that variable, so after the loop `*found` is the value
of the final iteration: the last element of the original slice, not
necessarily the matched one.  Every element whose URL equals `url` is dropped
from the kept slice.  When a match was seen, the collection is replaced by the
kept slice and the record pointed to by `found` is returned with its `Path`
resolved; otherwise `nil` is returned and nothing changes. -/
def Filters.delete (fs : Filters) (url : String) : Filters × Option Filter :=
  let pl := fs.conf.Proxylist
  let nf := pl.filter (fun f => !(f.URL == url))
  if pl.any (fun f => f.URL == url) then
    let lastf := pl.getLast?.getD Filter.zero
    ({ fs with conf := { fs.conf with Proxylist := nf } },
     some { lastf with Path := filterPath fs.conf lastf })
  else
    (fs, none)

/-- Go `Modify` (filters.go:268-298).  The Go loop is `for _, f := range`, so `f`
is a copy of the stored element; the assignments `f.Name = name`,
`f.Enabled = enabled`, `f.URL = newURL` mutate only that copy and the stored
collection is never changed.  The status flags are computed from the first
matching record's original field values (the `f.URL != newURL` comparison runs
before the copy's URL is overwritten), and a match that needs no flag leaves
`st == 0`, which the tail of the function turns into `StatusNotFound`. -/
def Filters.modify (fs : Filters) (url : String) (enabled : Bool)
    (name : String) (newURL : String) : Filters × Nat :=
  let st :=
    match fs.conf.Proxylist.find? (fun f => f.URL == url) with
    | none => 0
    | some f =>
      (if f.Enabled != enabled then StatusChangedEnabled else 0) |||
      (if f.URL != newURL then StatusChangedURL else 0)
  (fs, if st = 0 then StatusNotFound else st)

/-- Go `List` (filters.go:124-134).  `ff := make([]Filter, len(pl))` allocates a
slice already holding `len(pl)` zero-valued records, and the loop then
`append`s one path-resolved copy per stored record after them. -/
def Filters.list (fs : Filters) : List Filter :=
  let ff := List.replicate fs.conf.Proxylist.length Filter.zero
  ff ++ fs.conf.Proxylist.map (fun f => { f with Path := filterPath fs.conf f })

/-- Go `getNextToUpdate` (filters.go:345-360): scan in order for the first
enabled record whose `nextUpdate` has elapsed; claim it by pushing its
`nextUpdate` to `now + interval` (`time.Duration(hours) * time.Hour`, i.e.
`hours * 3600` seconds) in the stored slice, and return a pointer to it.
Returns the claimed record (already updated, since the Go pointer aims into
the slice) together with the updated slice. -/
def getNextToUpdateList (interval now : Nat) : List Filter → Option Filter × List Filter
  | [] => (none, [])
  | f :: rest =>
    if f.Enabled ∧ f.nextUpdate ≤ now then
      let f1 := { f with nextUpdate := now + interval * 3600 }
      (some f1, f1 :: rest)
    else
      let p := getNextToUpdateList interval now rest
      (p.1, f :: p.2)

/-- The loop of `modifyUpdated` (filters.go:363-376): find the first record
with the given URL (iteration is by index and pointer here, so the mutation
reaches the stored slice), set `newID`, `RuleCount` and `LastUpdated` from the
freshly downloaded copy, and report whether a match was found. -/
def modifyUpdatedList (uf : Filter) : List Filter → List Filter × Bool
  | [] => ([], false)
  | f :: rest =>
    if f.URL = uf.URL then
      ({ f with newID := uf.ID, RuleCount := uf.RuleCount,
                LastUpdated := uf.LastUpdated } :: rest, true)
    else
      let p := modifyUpdatedList uf rest
      (f :: p.1, p.2)

/-- Go `modifyUpdated` (filters.go:363-376): merge a finished download back into
the store; `filtersUpdated` is set exactly when a record matched. -/
def Filters.modifyUpdated (fs : Filters) (uf : Filter) : Filters :=
  let p := modifyUpdatedList uf fs.conf.Proxylist
  { fs with conf := { fs.conf with Proxylist := p.1 },
            filtersUpdated := fs.filtersUpdated || p.2 }

/-- Result of the swap loop: updated records, updated directory, emitted
rename attempts. -/
structure SwapOut where
  pl : List Filter
  disk : Disk
  evs : List Event
deriving DecidableEq, Repr

/-- The swap loop of `applyUpdate` (filters.go:391-404): for every record with
`newID != 0 && newID != ID`, attempt `os.Rename(<newID>.txt, <ID>.txt)` (a
failure is only logged) and clear `newID`.  The `nUpdated` counter is only
logged and is not modelled. -/
def applySwap : List Filter → Disk → SwapOut
  | [], disk => ⟨[], disk, []⟩
  | f :: rest, disk =>
    if f.newID ≠ 0 ∧ f.newID ≠ f.ID then
      let disk1 := fsRename disk f.newID f.ID
      let out := applySwap rest disk1
      ⟨{ f with newID := 0 } :: out.pl, out.disk, Event.rename f.newID f.ID :: out.evs⟩
    else
      let out := applySwap rest disk
      ⟨f :: out.pl, out.disk, out.evs⟩

/-- Result of `applyUpdate`: new module state, new directory, event trace. -/
structure AUOut where
  st : Filters
  disk : Disk
  evs : List Event
deriving DecidableEq, Repr

/-- Go `applyUpdate` (filters.go:379-409): return immediately when
`filtersUpdated` is unset; otherwise clear it, notify `EventBeforeUpdate`, run
the swap loop, and notify `EventAfterUpdate` unconditionally. -/
def Filters.applyUpdate (fs : Filters) (disk : Disk) : AUOut :=
  if fs.filtersUpdated = false then ⟨fs, disk, []⟩
  else
    let fs1 := { fs with filtersUpdated := false }
    let out := applySwap fs1.conf.Proxylist disk
    ⟨{ fs1 with conf := { fs1.conf with Proxylist := out.pl } }, out.disk,
     notifyEvents fs.Users EventBeforeUpdate ++ out.evs ++
       notifyEvents fs.Users EventAfterUpdate⟩

/-- The claimed-record branch of the `updateFilters` loop body
(filters.go:332-340): give the claimed copy `uf` a new id from the clock,
download; on failure do nothing further (the claim stands, retry only after
the full interval); on success merge with `modifyUpdated`. -/
def refreshStep (fs : Filters) (disk : Disk) (f : Filter)
    (res : Except Unit Bytes) (now idNow : Nat) : Filters × Disk :=
  let uf := { f with ID := idNow }
  match downloadFilter disk uf res now with
  | .error _ => (fs, disk)
  | .ok (uf2, disk1) => (fs.modifyUpdated uf2, disk1)

/-- Outcome of one iteration of the `updateFilters` loop body. -/
inductive IterOutcome where
  | faultNilDeref
  | ran (st : Filters) (disk : Disk)
deriving DecidableEq, Repr

/-- One iteration of the `updateFilters` loop body (filters.go:316-341).  The
Go code runs, in order: `f := fs.getNextToUpdate()`, then `uf := *f`, and only
afterwards `if f == nil { fs.applyUpdate(); time.Sleep(period); continue }`.
When no record is due, `getNextToUpdate` returns `nil` and the dereference
`uf := *f` faults (nil-pointer panic) before the nil check is reached, so the
no-due-record branch never gets to `applyUpdate` or the sleep. -/
def updateFiltersIter (fs : Filters) (disk : Disk) (now : Nat)
    (res : Except Unit Bytes) : IterOutcome :=
  let p := getNextToUpdateList fs.conf.UpdateIntervalHours now fs.conf.Proxylist
  let fs1 := { fs with conf := { fs.conf with Proxylist := p.2 } }
  match p.1 with
  | none => IterOutcome.faultNilDeref
  | some f =>
    let out := refreshStep fs1 disk f res now (nextFilterID now)
    IterOutcome.ran out.1 out.2

theorem applySwap_pl (pl : List Filter) (disk : Disk) :
    (applySwap pl disk).pl =
      pl.map (fun f => if f.newID ≠ 0 ∧ f.newID ≠ f.ID then { f with newID := 0 } else f) := by
  induction pl generalizing disk with
  | nil => rfl
  | cons f rest ih =>
    by_cases h : f.newID ≠ 0 ∧ f.newID ≠ f.ID
    · simp only [applySwap, if_pos h, List.map_cons, ih]
    · simp only [applySwap, if_neg h, List.map_cons, ih]

theorem applySwap_evs_rename (pl : List Filter) (disk : Disk) :
    ∀ e ∈ (applySwap pl disk).evs, e.isRename = true := by
  induction pl generalizing disk with
  | nil => intro e he; exact absurd he (List.not_mem_nil e)
  | cons f rest ih =>
    intro e he
    by_cases h : f.newID ≠ 0 ∧ f.newID ≠ f.ID
    · simp only [applySwap, if_pos h, List.mem_cons] at he
      rcases he with he | he
      · subst he; rfl
      · exact ih _ e he
    · simp only [applySwap, if_neg h] at he
      exact ih _ e he

theorem applySwap_rename_mem (pl : List Filter) (disk : Disk) (f : Filter)
    (hf : f ∈ pl) (h0 : f.newID ≠ 0) (hne : f.newID ≠ f.ID) :
    Event.rename f.newID f.ID ∈ (applySwap pl disk).evs := by
  induction pl generalizing disk with
  | nil => exact absurd hf (List.not_mem_nil f)
  | cons g rest ih =>
    rcases List.mem_cons.mp hf with hg | hg
    · subst hg
      simp only [applySwap, if_pos (And.intro h0 hne)]
      exact List.mem_cons_self _ _
    · by_cases h : g.newID ≠ 0 ∧ g.newID ≠ g.ID
      · simp only [applySwap, if_pos h]
        exact List.mem_cons_of_mem _ (ih _ hg)
      · simp only [applySwap, if_neg h]
        exact ih _ hg

theorem applySwap_lookup_pres (pl : List Filter) (disk : Disk) (a : Nat)
    (h : ∀ g ∈ pl, g.ID ≠ a ∧ g.newID ≠ a) :
    diskLookup (applySwap pl disk).disk a = diskLookup disk a := by
  induction pl generalizing disk with
  | nil => rfl
  | cons g rest ih =>
    have hg := h g (List.mem_cons_self g rest)
    have hrest : ∀ q ∈ rest, q.ID ≠ a ∧ q.newID ≠ a :=
      fun q hq => h q (List.mem_cons_of_mem g hq)
    by_cases hp : g.newID ≠ 0 ∧ g.newID ≠ g.ID
    · simp only [applySwap, if_pos hp]
      rw [ih _ hrest]
      exact fsRename_lookup_ne disk g.newID g.ID a
        (fun hs => hg.2 hs.symm) (fun hd => hg.1 hd.symm)
    · simp only [applySwap, if_neg hp]
      exact ih _ hrest

theorem applySwap_lookup_target :
    ∀ (pl : List Filter) (disk : Disk) (i : Nat) (f : Filter) (body : Bytes),
      pl.get? i = some f → f.newID ≠ 0 → f.newID ≠ f.ID →
      (∀ (j : Nat) (g : Filter), pl.get? j = some g → j ≠ i →
        g.ID ≠ f.ID ∧ g.ID ≠ f.newID ∧ g.newID ≠ f.ID ∧ g.newID ≠ f.newID) →
      diskLookup disk f.newID = some body →
      diskLookup (applySwap pl disk).disk f.ID = some body := by
  intro pl
  induction pl with
  | nil => intro disk i f body hget; simp [List.get?] at hget
  | cons g rest ih =>
    intro disk i f body hget h0 hne hdist hsrc
    cases i with
    | zero =>
      have hgf : g = f := by
        simpa [List.get?] using hget
      subst hgf
      simp only [applySwap, if_pos (And.intro h0 hne)]
      have hdisk1 : diskLookup (fsRename disk g.newID g.ID) g.ID = some body :=
        fsRename_lookup_dst disk g.newID g.ID body hsrc
      have hrest : ∀ q ∈ rest, q.ID ≠ g.ID ∧ q.newID ≠ g.ID := by
        intro q hq
        obtain ⟨j, hj⟩ := List.get?_of_mem hq
        have := hdist (j + 1) q (by simpa [List.get?] using hj) (Nat.succ_ne_zero j)
        exact ⟨this.1, this.2.2.1⟩
      rw [applySwap_lookup_pres rest _ g.ID hrest]
      exact hdisk1
    | succ j =>
      have hget' : rest.get? j = some f := by simpa [List.get?] using hget
      have hg0 := hdist 0 g (by simp [List.get?]) (Nat.succ_ne_zero j).symm
      have hdist' : ∀ (j' : Nat) (q : Filter), rest.get? j' = some q → j' ≠ j →
          q.ID ≠ f.ID ∧ q.ID ≠ f.newID ∧ q.newID ≠ f.ID ∧ q.newID ≠ f.newID := by
        intro j' q hq hj'
        exact hdist (j' + 1) q (by simpa [List.get?] using hq)
          (fun hh => hj' (Nat.succ_injective hh))
      by_cases hp : g.newID ≠ 0 ∧ g.newID ≠ g.ID
      · simp only [applySwap, if_pos hp]
        have hsrc1 : diskLookup (fsRename disk g.newID g.ID) f.newID = some body := by
          rw [fsRename_lookup_ne disk g.newID g.ID f.newID
            (fun hh => hg0.2.2.2 hh.symm) (fun hh => hg0.2.1 hh.symm)]
          exact hsrc
        exact ih _ j f body hget' h0 hne hdist' hsrc1
      · simp only [applySwap, if_neg hp]
        exact ih _ j f body hget' h0 hne hdist' hsrc

theorem modifyUpdatedList_spec :
    ∀ (pl : List Filter) (i : Nat) (f uf : Filter),
      pl.get? i = some f → f.URL = uf.URL →
      (∀ (j : Nat) (g : Filter), j < i → pl.get? j = some g → g.URL ≠ uf.URL) →
      (modifyUpdatedList uf pl).2 = true ∧
      (modifyUpdatedList uf pl).1.get? i =
        some { f with newID := uf.ID, RuleCount := uf.RuleCount,
                      LastUpdated := uf.LastUpdated } ∧
      ∀ (j : Nat), j ≠ i → (modifyUpdatedList uf pl).1.get? j = pl.get? j := by
  intro pl
  induction pl with
  | nil => intro i f uf hget; simp [List.get?] at hget
  | cons g rest ih =>
    intro i f uf hget hurl hfirst
    cases i with
    | zero =>
      have hgf : g = f := by simpa [List.get?] using hget
      subst hgf
      simp only [modifyUpdatedList, if_pos hurl]
      refine ⟨by trivial, by trivial, ?_⟩
      intro j hj
      cases j with
      | zero => exact absurd rfl hj
      | succ m => rfl
    | succ k =>
      have hne : ¬g.URL = uf.URL :=
        hfirst 0 g (Nat.succ_pos k) (by simp [List.get?])
      have hget' : rest.get? k = some f := by simpa [List.get?] using hget
      have hfirst' : ∀ (j : Nat) (q : Filter), j < k → rest.get? j = some q →
          q.URL ≠ uf.URL := by
        intro j q hj hq
        exact hfirst (j + 1) q (Nat.succ_lt_succ hj) (by simpa [List.get?] using hq)
      obtain ⟨hfound, hgeti, hother⟩ := ih k f uf hget' hurl hfirst'
      simp only [modifyUpdatedList, if_neg hne]
      refine ⟨hfound, by simpa [List.get?] using hgeti, ?_⟩
      intro j hj
      cases j with
      | zero => rfl
      | succ m =>
        have : m ≠ k := fun hh => hj (by rw [hh])
        simpa [List.get?] using hother m this

theorem splitNext_snd_le (data : Bytes) (sep : Char) :
    (splitNext data sep).2.length ≤ data.length := by
  induction data with
  | nil => simp [splitNext]
  | cons c rest ih =>
    by_cases h : c = sep
    · simp [splitNext, h]
    · simp only [splitNext, if_neg h]
      exact Nat.le_trans ih (Nat.le_succ _)

theorem splitNext_snd_lt (data : Bytes) (sep : Char) (h : data ≠ []) :
    (splitNext data sep).2.length < data.length := by
  cases data with
  | nil => exact absurd rfl h
  | cons c rest =>
    by_cases hc : c = sep
    · simp [splitNext, hc]
    · simp only [splitNext, if_neg hc]
      exact Nat.lt_succ_of_le (splitNext_snd_le rest sep)

theorem splitNext_no_sep (data : Bytes) (sep : Char) (h : sep ∉ data) :
    splitNext data sep = (data, []) := by
  induction data with
  | nil => rfl
  | cons c rest ih =>
    have hc : ¬c = sep := fun hcs => h (hcs ▸ List.mem_cons_self c rest)
    have hrest : sep ∉ rest := fun hm => h (List.mem_cons_of_mem c hm)
    simp only [splitNext, if_neg hc, ih hrest]

theorem specLines_decomp (data : Bytes) :
    specLines data = (splitNext data '\n').1 ::
      (if '\n' ∈ data then specLines (splitNext data '\n').2 else []) := by
  induction data with
  | nil => simp [specLines, splitNext]
  | cons c rest ih =>
    by_cases h : c = '\n'
    · subst h
      simp [specLines, splitNext]
    · have hmem : ('\n' ∈ c :: rest) ↔ ('\n' ∈ rest) := by
        constructor
        · intro hm
          rcases List.mem_cons.mp hm with h1 | h2
          · exact absurd h1.symm h
          · exact h2
        · exact fun hm => List.mem_cons_of_mem c hm
      simp only [specLines, if_neg h, splitNext, ih, hmem]

theorem ruleCountAux_nil (n : Nat) : ruleCountAux n [] = 0 := by
  cases n <;> rfl

theorem ruleCount_spec :
    ∀ (n : Nat) (data : Bytes), data.length ≤ n →
      ruleCountAux n data = countSignificant (specLines data) := by
  intro n
  induction n with
  | zero =>
    intro data hlen
    have hdata : data = [] := List.length_eq_zero.mp (Nat.le_zero.mp hlen)
    subst hdata
    simp [ruleCountAux, countSignificant, specLines, significantLine]
  | succ n ih =>
    intro data hlen
    cases data with
    | nil => simp [ruleCountAux, countSignificant, specLines, significantLine]
    | cons c rest =>
      have hunfold : ruleCountAux (n + 1) (c :: rest) =
          (if significantLine (splitNext (c :: rest) '\n').1 then 1 else 0) +
            ruleCountAux n (splitNext (c :: rest) '\n').2 := rfl
      rw [hunfold, specLines_decomp (c :: rest)]
      by_cases hmem : '\n' ∈ c :: rest
      · have hlt : (splitNext (c :: rest) '\n').2.length < (c :: rest).length :=
          splitNext_snd_lt _ _ (by simp)
        have hle : (splitNext (c :: rest) '\n').2.length ≤ n := by
          have := hlen
          simp only [List.length_cons] at this
          omega
        rw [if_pos hmem]
        simp only [countSignificant, List.countP_cons, ih _ hle]
        omega
      · rw [splitNext_no_sep _ _ hmem, if_neg hmem]
        simp only [countSignificant, List.countP_cons, ruleCountAux_nil,
          List.countP_nil]
        omega




/-- One enabled record that owes nothing to the scheduler yet (its
`nextUpdate` lies in the future at the iteration time used below). -/
def fC1 : Filter :=
  { Filter.zero with ID := 1, Enabled := true, Name := "n1",
                     URL := "http://a/1.txt", nextUpdate := 1000 }

/-- Store state for claim C1: nothing is due. -/
def stC1 : Filters :=
  { filtersUpdated := false, updateTaskRunning := true,
    conf := { FilterDir := "data/filters", UpdateIntervalHours := 24,
              Proxylist := [fC1] },
    Users := [] }

/-- C1: the spec says that on an iteration where no record is due, the loop
body runs without fault, invokes the Swap Applier and sleeps.  The code
instead evaluates `uf := *f` (filters.go:322) before the `f == nil` check
(filters.go:325), so the iteration dereferences a nil pointer and panics: the
Swap Applier and the sleep are never reached.  At the concrete state `stC1`
(one enabled record, not yet due at time 100) the next-to-update scan returns
no record and the modelled loop body faults. -/
theorem c1_bug :
    getNextToUpdateList stC1.conf.UpdateIntervalHours 100 stC1.conf.Proxylist
      = (none, [fC1]) ∧
    updateFiltersIter stC1 [] 100 (Except.ok []) = IterOutcome.faultNilDeref := by
  decide

/-- Record for claim C2. -/
def fC2 : Filter :=
  { Filter.zero with ID := 7, Enabled := true, Name := "old", URL := "u" }

/-- Store state for claim C2: exactly one record, with URL `"u"`. -/
def stC2 : Filters :=
  { filtersUpdated := false, updateTaskRunning := false,
    conf := { FilterDir := "d", UpdateIntervalHours := 1, Proxylist := [fC2] },
    Users := [] }

/-- C2: the spec says `Modify` updates the stored record's fields in place and
returns `StatusNotFound` only when no record matches the url.  The Go loop
iterates `for _, f := range`, so all assignments land on a copy and the stored
record is never changed; moreover a match that changes neither the enabled
flag nor the URL leaves the status `0`, which the function then reports as
`StatusNotFound`.  Concretely: the store holds a record with URL `"u"`, and
`Modify("u", true, "new", "u")` (a pure rename request) returns
`StatusNotFound` and leaves the store — including the record's `Name` —
completely unchanged. -/
theorem c2_bug :
    stC2.conf.Proxylist.get? 0 = some fC2 ∧
    fC2.URL = "u" ∧ fC2.Name = "old" ∧ fC2.Enabled = true ∧
    stC2.modify "u" true "new" "u" = (stC2, StatusNotFound) := by
  decide

/-- Record for claim C3. -/
def fC3 : Filter :=
  { Filter.zero with ID := 5, Enabled := true, Name := "n3", URL := "u3" }

/-- Store state for claim C3: exactly one record. -/
def stC3 : Filters :=
  { filtersUpdated := false, updateTaskRunning := false,
    conf := { FilterDir := "d", UpdateIntervalHours := 1, Proxylist := [fC3] },
    Users := [] }

/-- C3: the spec says `List()` returns exactly one entry per stored record.
The Go code allocates `ff := make([]Filter, len(pl))` — a slice that already
holds `len(pl)` zero-valued records — and then `append`s the real copies after
them, so the snapshot has twice the number of records, the first half of them
zero-valued.  Concretely: a store with one record yields a snapshot of length
two whose first entry is the zero record. -/
theorem c3_bug :
    stC3.conf.Proxylist.length = 1 ∧
    stC3.list.length = 2 ∧
    stC3.list.get? 0 = some Filter.zero ∧
    stC3.list.get? 1 = some { fC3 with Path := filterPath stC3.conf fC3 } := by
  decide

/-- First record for claim C4 (the one the delete call targets). -/
def fC4a : Filter :=
  { Filter.zero with ID := 1, Enabled := true, Name := "na", URL := "a" }

/-- Second record for claim C4 (the last element of the collection). -/
def fC4b : Filter :=
  { Filter.zero with ID := 2, Enabled := true, Name := "nb", URL := "b" }

/-- Store state for claim C4: two records, urls `"a"` then `"b"`. -/
def stC4 : Filters :=
  { filtersUpdated := false, updateTaskRunning := false,
    conf := { FilterDir := "d", UpdateIntervalHours := 1,
              Proxylist := [fC4a, fC4b] },
    Users := [] }

/-- C4: the spec says `Delete(url)` returns the removed record itself with its
resolved path.  The Go loop stores `found = &f` where `f` is the reused range
variable, so after the loop `*found` is the final element of the original
slice.  Concretely: deleting `"a"` from `[a, b]` removes the right record, but
the returned record is `b` — with `b`'s path — not the deleted `a`. -/
theorem c4_bug :
    (stC4.delete "a").1.conf.Proxylist = [fC4b] ∧
    (stC4.delete "a").2 = some { fC4b with Path := filterPath stC4.conf fC4b } ∧
    fC4b.URL ≠ "a" := by
  decide

/-- Record for claim C5: active id 1, pending revision id 2. -/
def fC5 : Filter :=
  { Filter.zero with ID := 1, newID := 2, Enabled := true, Name := "n5",
                     URL := "u5" }

/-- Store state for claim C5: pending work is flagged. -/
def stC5 : Filters :=
  { filtersUpdated := true, updateTaskRunning := true,
    conf := { FilterDir := "d", UpdateIntervalHours := 1, Proxylist := [fC5] },
    Users := [3] }

/-- Directory for claim C5: the pending file 2.txt and the active file 1.txt. -/
def dC5 : Disk := [(2, ['n', 'e', 'w']), (1, ['o', 'l', 'd'])]

/-- C5 counterexample: the claim says that after the Swap Applier a record that
entered with `pendingRevisionId = 2` and active id `1` has its active id set to
`2`.  The code renames the pending file onto the active-id filename and never
touches `ID`: after the run the record's active id is still `1`. -/
theorem c5_counterexample :
    stC5.filtersUpdated = true ∧ stC5.conf.Proxylist = [fC5] ∧
    fC5.newID = 2 ∧ fC5.ID = 1 ∧
    (stC5.applyUpdate dC5).st.conf.Proxylist.map Filter.ID = [1] := by
  decide

/-- C5 as amended: after the Swap Applier runs, every record that entered it
with a non-zero `pendingRevisionId` (`newID`) different from its current
active id has had a rename of its pending-revision file onto the active-id
filename attempted, and its `pendingRevisionId` cleared to zero; its active id
is left unchanged (the active-id filename now carries the new content). -/
theorem c5_swap (fs : Filters) (disk : Disk) (i : Nat) (f : Filter)
    (hu : fs.filtersUpdated = true) (hget : fs.conf.Proxylist.get? i = some f)
    (h0 : f.newID ≠ 0) (hne : f.newID ≠ f.ID) :
    (fs.applyUpdate disk).st.conf.Proxylist.get? i = some { f with newID := 0 } ∧
    Event.rename f.newID f.ID ∈ (fs.applyUpdate disk).evs := by
  have hmem : f ∈ fs.conf.Proxylist := List.mem_iff_get?.mpr ⟨i, hget⟩
  simp only [Filters.applyUpdate, hu, Bool.true_eq_false, if_false]
  constructor
  · rw [applySwap_pl, List.get?_map, hget]
    simp [if_pos (And.intro h0 hne)]
  · refine List.mem_append.mpr (Or.inl ?_)
    refine List.mem_append.mpr (Or.inr ?_)
    exact applySwap_rename_mem _ _ f hmem h0 hne

/-- C5 witness: the amended statement applied at the concrete state `stC5`. -/
theorem c5_witness :
    (stC5.applyUpdate dC5).st.conf.Proxylist.get? 0 = some { fC5 with newID := 0 } ∧
    Event.rename fC5.newID fC5.ID ∈ (stC5.applyUpdate dC5).evs :=
  c5_swap stC5 dC5 0 fC5 rfl rfl (by decide) (by decide)

/-- Record for claim C6: its active id was assigned at second 100. -/
def fC6 : Filter :=
  { Filter.zero with ID := 100, Enabled := true, Name := "n6", URL := "u6" }

/-- Store state for claim C6. -/
def stC6 : Filters :=
  { filtersUpdated := false, updateTaskRunning := true,
    conf := { FilterDir := "d", UpdateIntervalHours := 1, Proxylist := [fC6] },
    Users := [] }

/-- Directory for claim C6: the currently served file 100.txt. -/
def dC6 : Disk := [(100, ['o'])]

/-- C6 counterexample: the claim says the id chosen for a scheduled download
always differs from the record's active id, so the served file is never
overwritten by the download step.  The chosen id is the current Unix second,
so a refresh in the same second in which the active id was assigned picks the
same id, and the download writes straight over the served file: at time 100,
`nextFilterID` returns the record's own active id 100 and the refresh step
replaces 100.txt before any swap runs. -/
theorem c6_counterexample :
    nextFilterID 100 = fC6.ID ∧
    diskLookup dC6 fC6.ID = some ['o'] ∧
    diskLookup (refreshStep stC6 dC6 fC6 (Except.ok ['n']) 100 (nextFilterID 100)).2
        fC6.ID = some ['n'] := by
  decide

/-- C6 as amended: whenever the current second differs from the second at
which the record's active id was assigned (`now ≠ f.ID`), the id chosen for
the download differs from the active id, and the download step leaves the
currently served file untouched (whether the download succeeds or fails). -/
theorem c6_fresh_id (fs : Filters) (disk : Disk) (f : Filter)
    (res : Except Unit Bytes) (now : Nat) (h : now ≠ f.ID) :
    nextFilterID now ≠ f.ID ∧
    diskLookup (refreshStep fs disk f res now (nextFilterID now)).2 f.ID =
      diskLookup disk f.ID := by
  refine ⟨h, ?_⟩
  cases res with
  | error e => rfl
  | ok body =>
    show diskLookup (diskWrite disk now body) f.ID = diskLookup disk f.ID
    exact diskLookup_write_ne disk now body f.ID (Ne.symm h)

/-- C6 witness: the amended statement applied at the concrete state `stC6` at
a time one second after the active id was assigned. -/
theorem c6_witness :
    nextFilterID 101 ≠ fC6.ID ∧
    diskLookup (refreshStep stC6 dC6 fC6 (Except.ok ['n']) 101 (nextFilterID 101)).2
        fC6.ID = diskLookup dC6 fC6.ID :=
  c6_fresh_id stC6 dC6 fC6 (Except.ok ['n']) 101 (by decide)

/-- Record for claim C7: its active id was assigned at second 50. -/
def fC7 : Filter :=
  { Filter.zero with ID := 50, Enabled := true, Name := "n7", URL := "u7" }

/-- Store state for claim C7. -/
def stC7 : Filters :=
  { filtersUpdated := false, updateTaskRunning := true,
    conf := { FilterDir := "d", UpdateIntervalHours := 1, Proxylist := [fC7] },
    Users := [2] }

/-- Directory for claim C7: the currently served file 50.txt. -/
def dC7 : Disk := [(50, ['a'])]

/-- C7 counterexample: the claim promises, for every successful scheduled
download, that the active served file stays unchanged until the Swap Applier
runs.  When the refresh happens in the same second as the active id's
assignment, the "new" id collides with the active id and the successful
download itself rewrites the served file before any swap: at time 50 the
refresh of `fC7` (active id 50) changes the content of 50.txt immediately. -/
theorem c7_counterexample :
    diskLookup (refreshStep stC7 dC7 fC7 (Except.ok ['b']) 50 (nextFilterID 50)).2
        fC7.ID ≠ diskLookup dC7 fC7.ID := by
  decide

/-- C7 as amended: for every filter whose scheduled download succeeds with a
new id that is non-zero and distinct from the record's active id — and whose
active and pending ids are not shared by any other record, the record being
the first with its URL — the active served file is unchanged by the download
step, and after the Swap Applier runs the bytes of the active file equal the
downloaded body exactly. -/
theorem c7_roundtrip (fs : Filters) (disk : Disk) (i : Nat) (f : Filter)
    (body : Bytes) (now idNow : Nat)
    (hget : fs.conf.Proxylist.get? i = some f)
    (hid0 : idNow ≠ 0)
    (hidne : idNow ≠ f.ID)
    (hfirst : ∀ (j : Nat) (g : Filter), j < i →
      fs.conf.Proxylist.get? j = some g → g.URL ≠ f.URL)
    (hdist : ∀ (j : Nat) (g : Filter), fs.conf.Proxylist.get? j = some g → j ≠ i →
      g.ID ≠ f.ID ∧ g.ID ≠ idNow ∧ g.newID ≠ f.ID ∧ g.newID ≠ idNow) :
    diskLookup (refreshStep fs disk f (Except.ok body) now idNow).2 f.ID =
      diskLookup disk f.ID ∧
    diskLookup ((refreshStep fs disk f (Except.ok body) now idNow).1.applyUpdate
        (refreshStep fs disk f (Except.ok body) now idNow).2).disk f.ID =
      some body := by
  have part1 : diskLookup (refreshStep fs disk f (Except.ok body) now idNow).2 f.ID =
      diskLookup disk f.ID := by
    show diskLookup (diskWrite disk idNow body) f.ID = diskLookup disk f.ID
    exact diskLookup_write_ne disk idNow body f.ID (Ne.symm hidne)
  refine ⟨part1, ?_⟩
  obtain ⟨hfound, hgeti, hother⟩ :=
    modifyUpdatedList_spec fs.conf.Proxylist i f
      { parseFilter { f with ID := idNow } body with LastUpdated := now }
      hget rfl (fun j g hj hg => hfirst j g hj hg)
  have hupd : (refreshStep fs disk f (Except.ok body) now idNow).1.filtersUpdated
      = true := by
    show (fs.filtersUpdated ||
      (modifyUpdatedList
        { parseFilter { f with ID := idNow } body with LastUpdated := now }
        fs.conf.Proxylist).2) = true
    rw [hfound, Bool.or_true]
  have hdist2 : ∀ (j : Nat) (g : Filter),
      (modifyUpdatedList
        { parseFilter { f with ID := idNow } body with LastUpdated := now }
        fs.conf.Proxylist).1.get? j = some g → j ≠ i →
      g.ID ≠ f.ID ∧ g.ID ≠ idNow ∧ g.newID ≠ f.ID ∧ g.newID ≠ idNow := by
    intro j g hj hne2
    rw [hother j hne2] at hj
    exact hdist j g hj hne2
  simp only [Filters.applyUpdate, hupd, Bool.true_eq_false, if_false]
  exact applySwap_lookup_target
    (modifyUpdatedList
      { parseFilter { f with ID := idNow } body with LastUpdated := now }
      fs.conf.Proxylist).1
    (diskWrite disk idNow body) i
    { f with newID := idNow,
             RuleCount := (parseFilter { f with ID := idNow } body).RuleCount,
             LastUpdated := now }
    body hgeti hid0 hidne hdist2 (diskLookup_write_self disk idNow body)

/-- C7 witness: the amended statement applied at the concrete state `stC7`,
refreshing at second 77 with fresh id 88 and body `['b']`. -/
theorem c7_witness :
    diskLookup (refreshStep stC7 dC7 fC7 (Except.ok ['b']) 77 88).2 fC7.ID =
      diskLookup dC7 fC7.ID ∧
    diskLookup ((refreshStep stC7 dC7 fC7 (Except.ok ['b']) 77 88).1.applyUpdate
        (refreshStep stC7 dC7 fC7 (Except.ok ['b']) 77 88).2).disk fC7.ID =
      some ['b'] :=
  c7_roundtrip stC7 dC7 0 fC7 ['b'] 77 88 rfl (by decide) (by decide)
    (fun j _ hj _ => absurd hj (Nat.not_lt_zero j))
    (by
      intro j g hj hne
      cases j with
      | zero => exact absurd rfl hne
      | succ m => simp [List.get?] at hj)

/-- C8: in every Swap Applier run with pending work (`filtersUpdated` set),
the event trace is exactly the `EventBeforeUpdate` delivery to every
registered observer in registration order, then the rename attempts of the
batch (every event between the deliveries is a rename attempt — attempts are
recorded even when the underlying `os.Rename` fails), then the
`EventAfterUpdate` delivery to every observer; with no pending work the run
fires no notifications and performs no renames (directory unchanged, empty
trace). -/
theorem c8 (fs : Filters) (disk : Disk) :
    (fs.filtersUpdated = true →
      (fs.applyUpdate disk).evs =
        notifyEvents fs.Users EventBeforeUpdate ++
          (applySwap fs.conf.Proxylist disk).evs ++
          notifyEvents fs.Users EventAfterUpdate ∧
      (∀ e ∈ (applySwap fs.conf.Proxylist disk).evs, e.isRename = true)) ∧
    (fs.filtersUpdated = false →
      (fs.applyUpdate disk).evs = [] ∧ (fs.applyUpdate disk).disk = disk) := by
  constructor
  · intro hu
    refine ⟨?_, applySwap_evs_rename _ _⟩
    simp only [Filters.applyUpdate, hu, Bool.true_eq_false, if_false]
  · intro hu
    simp [Filters.applyUpdate, hu]

/-- Record for the C8 witness: active id 4, pending revision id 6. -/
def fC8 : Filter :=
  { Filter.zero with ID := 4, newID := 6, Enabled := true, Name := "n8",
                     URL := "u8" }

/-- Store state for the C8 witness: pending work, two registered observers. -/
def stC8p : Filters :=
  { filtersUpdated := true, updateTaskRunning := true,
    conf := { FilterDir := "d", UpdateIntervalHours := 2, Proxylist := [fC8] },
    Users := [10, 20] }

/-- Store state for the C8 witness: same store with no pending work. -/
def stC8i : Filters :=
  { stC8p with filtersUpdated := false }

/-- Directory for the C8 witness. -/
def dC8 : Disk := [(6, ['z'])]

/-- C8 witness: the theorem applied at a concrete pending state and at a
concrete idle state. -/
theorem c8_witness :
    ((stC8p.applyUpdate dC8).evs =
      notifyEvents stC8p.Users EventBeforeUpdate ++
        (applySwap stC8p.conf.Proxylist dC8).evs ++
        notifyEvents stC8p.Users EventAfterUpdate ∧
      (∀ e ∈ (applySwap stC8p.conf.Proxylist dC8).evs, e.isRename = true)) ∧
    ((stC8i.applyUpdate dC8).evs = [] ∧ (stC8i.applyUpdate dC8).disk = dC8) :=
  ⟨(c8 stC8p dC8).1 rfl, (c8 stC8i dC8).2 rfl⟩

/-- C9: `Add` fails with the duplicate error exactly when an existing record
shares the candidate's name or url, and with the download error when the
synchronous initial download fails; in both failure cases the store and the
directory are unchanged; on success the new record is appended with the fresh
id `nextFilterID now`, marked enabled, and its body written under the fresh
id. -/
theorem c9 (fs : Filters) (disk : Disk) (nf : Filter)
    (res : Except Unit Bytes) (now : Nat) :
    (fs.conf.Proxylist.any (fun f => f.Name == nf.Name || f.URL == nf.URL) = true →
      fs.add disk nf res now = (fs, disk, some AddError.duplicate)) ∧
    (fs.conf.Proxylist.any (fun f => f.Name == nf.Name || f.URL == nf.URL) = false →
      (res = Except.error () →
        fs.add disk nf res now = (fs, disk, some AddError.downloadFailed)) ∧
      (∀ body, res = Except.ok body →
        ∃ g : Filter, g.ID = nextFilterID now ∧ g.Enabled = true ∧
          g.Name = nf.Name ∧ g.URL = nf.URL ∧
          fs.add disk nf res now =
            ({ fs with conf := { fs.conf with Proxylist := fs.conf.Proxylist ++ [g] } },
             diskWrite disk (nextFilterID now) body, none))) := by
  constructor
  · intro hdup
    simp [Filters.add, hdup]
  · intro hdup
    constructor
    · intro hres
      subst hres
      simp [Filters.add, hdup, downloadFilter]
    · intro body hres
      subst hres
      refine ⟨{ parseFilter { nf with ID := nextFilterID now, Enabled := true } body
                  with LastUpdated := now }, rfl, rfl, rfl, rfl, ?_⟩
      simp [Filters.add, hdup, downloadFilter, parseFilter]

/-- Candidate record for the C9 witness (same URL as `fC2`, fresh name). -/
def nfC9 : Filter :=
  { Filter.zero with Name := "other", URL := "u" }

/-- Candidate record for the C9 witness success case (fresh name and URL). -/
def nfC9b : Filter :=
  { Filter.zero with Name := "fresh", URL := "w" }

/-- C9 witness: at the concrete one-record store `stC2`, adding a record with
a colliding URL fails with the duplicate error and changes nothing, and
adding a fresh record with a successful download appends it enabled under the
fresh id. -/
theorem c9_witness :
    stC2.add [] nfC9 (Except.ok ['r']) 500 = (stC2, [], some AddError.duplicate) ∧
    (∃ g : Filter, g.ID = nextFilterID 500 ∧ g.Enabled = true ∧
      g.Name = nfC9b.Name ∧ g.URL = nfC9b.URL ∧
      stC2.add [] nfC9b (Except.ok ['r']) 500 =
        ({ stC2 with conf := { stC2.conf with
            Proxylist := stC2.conf.Proxylist ++ [g] } },
         diskWrite [] (nextFilterID 500) ['r'], none)) :=
  ⟨(c9 stC2 [] nfC9 (Except.ok ['r']) 500).1 (by decide),
   ((c9 stC2 [] nfC9b (Except.ok ['r']) 500).2 (by decide)).2 ['r'] rfl⟩

/-- The body of the C10 example scenario from the spec. -/
def exampleBody : Bytes := "# comment\nrule1\n\nrule2\n".toList

/-- Helper for C10: the rule count stored by `parseFilter` equals the number
of significant lines of the body. -/
theorem parseFilter_ruleCount (f : Filter) (body : Bytes) :
    (parseFilter f body).RuleCount = countSignificant (specLines body) :=
  ruleCount_spec body.length body (Nat.le_refl _)

/-- C10: for every body, the classification step stores as `ruleCount` the
number of lines that are non-empty and do not start with `#` or `!`; in
particular the body `"# comment\nrule1\n\nrule2\n"` classifies to 2. -/
theorem c10 :
    (∀ (f : Filter) (body : Bytes),
      (parseFilter f body).RuleCount = countSignificant (specLines body)) ∧
    (parseFilter Filter.zero exampleBody).RuleCount = 2 :=
  ⟨fun f body => parseFilter_ruleCount f body,
   by rw [parseFilter_ruleCount]; decide⟩

end AGH
